import Mathlib

/-!
Shallow embedding of the `inst-death` extraction/translation engine
(`als_parser.py` and `hapax_generator.py`) and verification of its
specification claims.

The XML document produced by `xml.etree.ElementTree` is modelled as the
tree `XNode` (with `XNodes` for the ordered child sequence, so that tree
recursion is structural and computable); the ElementTree path queries
actually used by the source (`.//Tag`, `.//A/B`, `.//A//B`, via
`find`/`findall`) are modelled as document-order (preorder) searches over
proper descendants, which is exactly ElementTree's semantics for these
patterns.  Python exceptions (`int` on a non-numeric string) are modelled
with `Except Unit`.
-/

mutual

/-- An XML element: tag, attribute list (key-value pairs; keys are unique in
a document produced by an XML parser, and lookup takes the first binding),
and ordered child elements. -/
inductive XNode where
  | mk (tag : String) (attrs : List (String × String)) (children : XNodes)

/-- An ordered sequence of XML elements. -/
inductive XNodes where
  | nil
  | cons (head : XNode) (tail : XNodes)

end

/-- Build a child sequence from a list literal. -/
def xl : List XNode → XNodes
  | [] => .nil
  | c :: rest => .cons c (xl rest)

def XNodes.toList : XNodes → List XNode
  | .nil => []
  | .cons c rest => c :: rest.toList

def XNode.tag : XNode → String
  | .mk t _ _ => t

def XNode.attrs : XNode → List (String × String)
  | .mk _ a _ => a

def XNode.children : XNode → XNodes
  | .mk _ _ c => c

/-- The direct children of a node, as a list. -/
def XNode.childList (n : XNode) : List XNode :=
  n.children.toList

/-- `element.get(key)`: attribute lookup, `none` when absent. -/
def XNode.attr (n : XNode) (key : String) : Option String :=
  n.attrs.lookup key

/-- `element.get(key, default)`. -/
def XNode.attrD (n : XNode) (key : String) (d : String) : String :=
  (n.attr key).getD d

mutual

/-- The proper descendants of `n` in document (preorder) order: what
`n.iter()` yields after `n` itself. -/
def descNode : XNode → List XNode
  | .mk _ _ ch => descs ch

/-- All proper descendants of the elements of `ns`, each element followed by
its own subtree, in document (preorder) order. -/
def descs : XNodes → List XNode
  | .nil => []
  | .cons c rest => c :: (descNode c ++ descs rest)

end

/-- The proper descendants of `n` in document order. -/
def XNode.descendants (n : XNode) : List XNode :=
  descs n.children

/-- `findall('.//tag')`: all proper descendants bearing `tag`, document order. -/
def findallDesc (n : XNode) (t : String) : List XNode :=
  n.descendants.filter (fun e => e.tag == t)

/-- `find('.//tag')`: the first proper descendant bearing `tag`. -/
def findDesc (n : XNode) (t : String) : Option XNode :=
  (findallDesc n t).head?

/-- `findall('.//a/b')`: every `b`-child of an `a`-descendant, document order. -/
def findallChild2 (n : XNode) (a b : String) : List XNode :=
  (findallDesc n a).flatMap (fun e => e.childList.filter (fun c => c.tag == b))

/-- `find('.//a/b')`: the first `b`-child of an `a`-descendant. -/
def findChild2 (n : XNode) (a b : String) : Option XNode :=
  (findallChild2 n a b).head?

/-- `find('.//a//b')`: the first `b`-descendant of an `a`-descendant. -/
def findDesc2 (n : XNode) (a b : String) : Option XNode :=
  ((findallDesc n a).flatMap (fun e => findallDesc e b)).head?

/-- The whitespace set stripped by Python's `str.strip()` / ignored by `int()`,
restricted to the ASCII range (the full Unicode set plays no role here, and
every result below is independent of the exact choice of set). -/
def isPySpace (c : Char) : Bool :=
  c = ' ' || c = '\t' || c = '\n' || c = '\r' || c = '\x0b' || c = '\x0c'

/-- Decimal digit string to number; `none` when empty or not all digits. -/
def digitsToNat : List Char → Option Nat
  | [] => none
  | ds =>
    if ds.all (fun c => c.isDigit) then
      some (ds.foldl (fun acc c => 10 * acc + (c.toNat - 48)) 0)
    else none

/-- Python `int(s)` on a string: surrounding whitespace and an optional sign
are allowed, then at least one decimal digit; `none` models the `ValueError`
raised otherwise.  (Underscore digit grouping is not modelled: where it
matters below the model only needs to be exact about strings that Python
rejects, such as `"abc"`, and about plain numerals.) -/
def pyInt (s : String) : Option Int :=
  match (List.rdropWhile isPySpace (s.data.dropWhile isPySpace)) with
  | '+' :: ds => (digitsToNat ds).map Int.ofNat
  | '-' :: ds => (digitsToNat ds).map (fun n => -(n : Int))
  | ds => (digitsToNat ds).map Int.ofNat

/-- Python `s.startswith(p)`. -/
def pyStartsWith (p s : String) : Bool :=
  p.data.isPrefixOf s.data

/-- A drum pad: `{"note": ..., "name": ...}` in `als_parser.py`. -/
structure Pad where
  note : Int
  name : String
deriving Repr, DecidableEq

/-- Pad-name resolution inside a `DrumBranch` (`_extract_drum_pads`,
als_parser.py lines 157-168): `.//Name`, then `EffectiveName` before
`UserName` beneath it, reading attribute `Value` with default `''`. -/
def padName (branch : XNode) : String :=
  match findDesc branch "Name" with
  | none => ""
  | some nameElem =>
    match findDesc nameElem "EffectiveName" with
    | some eff => eff.attrD "Value" ""
    | none =>
      match findDesc nameElem "UserName" with
      | some un => un.attrD "Value" ""
      | none => ""

/-- `int(receiving_note.get('Value', 0))` (als_parser.py line 155): `0` when
the attribute is absent; a Python `ValueError` (modelled `.error ()`) when it
is present but not an integer literal. -/
def branchNote (rn : XNode) : Except Unit Int :=
  match rn.attr "Value" with
  | none => .ok 0
  | some s =>
    match pyInt s with
    | some k => .ok k
    | none => .error ()

/-- One iteration of the `DrumBranch` loop of `_extract_drum_pads`
(als_parser.py lines 146-175): `ok none` when the branch contributes no pad. -/
def branchPad (branch : XNode) : Except Unit (Option Pad) :=
  match findDesc branch "ReceivingNote" with
  | none => .ok none
  | some rn => do
    let note ← branchNote rn
    if padName branch ≠ "" then
      .ok (some { note := note, name := padName branch })
    else
      .ok none

/-- The accumulation loop over all `DrumBranch` elements. -/
def collectPads : List XNode → Except Unit (List Pad)
  | [] => .ok []
  | b :: bs => do
    let p ← branchPad b
    let rest ← collectPads bs
    match p with
    | some pad => .ok (pad :: rest)
    | none => .ok rest

/-- `pads.sort(key=lambda x: x['note'], reverse=True)`: a stable sort by note
descending; rendered by the (stable) insertion sort. -/
def sortPadsDesc (l : List Pad) : List Pad :=
  l.insertionSort (fun a b => b.note ≤ a.note)

/-- `_extract_drum_pads` (als_parser.py lines 137-185).  The two debug `print`
statements do not affect the result and are not modelled. -/
def extract_drum_pads (drum_rack : XNode) : Except Unit (List Pad) :=
  match findDesc drum_rack "Branches" with
  | none => .ok []
  | some branches => do
    let raw ← collectPads (findallDesc branches "DrumBranch")
    .ok (sortPadsDesc raw)

/-- The `Name`-element fallback of the first macro pass (als_parser.py
lines 108-114). -/
def macroFallbackName (macroElem : XNode) (i : Nat) : String :=
  match findDesc macroElem "Name" with
  | some ne => ne.attrD "Value" ("Macro " ++ toString (i + 1))
  | none => "Macro " ++ toString (i + 1)

/-- Body of the first-pass loop of `_extract_macros` for slot `i`
(als_parser.py lines 94-116); every iteration contributes exactly one name. -/
def macroSlot (macroControls : XNode) (i : Nat) : String :=
  match findDesc macroControls ("MacroControls." ++ toString i) with
  | none => "Macro " ++ toString (i + 1)
  | some macroElem =>
    let custom :=
      match findDesc macroElem ("MacroDisplayNames." ++ toString i) with
      | some c => some c
      | none => findDesc macroElem "CustomName"
    match custom with
    | some c =>
      let name := c.attrD "Value" ""
      if name ≠ "" then name else macroFallbackName macroElem i
    | none => macroFallbackName macroElem i

/-- First pass of `_extract_macros` (als_parser.py lines 89-116): empty when
no `.//Macros` node exists, otherwise exactly one name per slot `0..7`. -/
def macrosPass1 (rack : XNode) : List String :=
  match findDesc rack "Macros" with
  | none => []
  | some mc => (List.range 8).map (fun i => macroSlot mc i)

/-- One step of the second macro pass (als_parser.py lines 120-128):
`.//MacroDisplayNames.{i}` searched from the rack at any depth; a non-empty
`Value` overwrites slot `i` when the list is long enough and is appended at
the end otherwise. -/
def shallowStep (rack : XNode) (acc : List String) (i : Nat) : List String :=
  match findDesc rack ("MacroDisplayNames." ++ toString i) with
  | none => acc
  | some dn =>
    let name := dn.attrD "Value" ""
    if name ≠ "" then
      if i < acc.length then acc.set i name else acc ++ [name]
    else acc

/-- Second pass of `_extract_macros` over slots `0..7`. -/
def shallowPass (rack : XNode) (ms : List String) : List String :=
  (List.range 8).foldl (shallowStep rack) ms

/-- `while len(macros) < 8: macros.append(f'Macro {len(macros) + 1}')`
(als_parser.py lines 131-132).  Each iteration of the `while` loop grows the
list by one, so the loop runs at most 8 times; it is rendered with that
iteration bound made explicit. -/
def padMacrosIter : Nat → List String → List String
  | 0, ms => ms
  | k + 1, ms =>
    if ms.length < 8 then padMacrosIter k (ms ++ ["Macro " ++ toString (ms.length + 1)])
    else ms

/-- The `while` loop of als_parser.py lines 131-132. -/
def padMacrosTo8 (ms : List String) : List String :=
  padMacrosIter 8 ms

/-- Pad with placeholders to length 8, then `macros[:8]`. -/
def fitTo8 (ms : List String) : List String :=
  (padMacrosTo8 ms).take 8

/-- `_extract_macros` (als_parser.py lines 87-134): first pass, conditional
second pass (`if not macros or all(m.startswith('Macro ') for m in macros)`),
then coercion to exactly 8 entries. -/
def extract_macros (rack : XNode) : List String :=
  let ms := macrosPass1 rack
  let ms2 :=
    if ms.isEmpty || ms.all (fun m => pyStartsWith "Macro " m) then shallowPass rack ms
    else ms
  fitTo8 ms2

/-- Track-name resolution (als_parser.py lines 53-58): the `.//Name/UserName`
lookup happens only when no `.//Name/EffectiveName` element exists at all. -/
def trackNameOf (t : XNode) (index : Nat) : String :=
  match findChild2 t "Name" "EffectiveName" with
  | some e => e.attrD "Value" ("Track " ++ toString index)
  | none =>
    match findChild2 t "Name" "UserName" with
    | some u => u.attrD "Value" ("Track " ++ toString index)
    | none => "Track " ++ toString index

/-- A classified track: the dicts built in `_parse_midi_track`. -/
inductive TrackInfo where
  | drum (index : Nat) (name : String) (pads : List Pad)
  | inst (index : Nat) (name : String) (macros : List String)
deriving Repr, DecidableEq

/-- `_parse_midi_track` (als_parser.py lines 51-84): drum rack checked first,
then instrument rack, else unclassified (`ok none`). -/
def parse_midi_track (t : XNode) (index : Nat) : Except Unit (Option TrackInfo) :=
  match findDesc2 t "DeviceChain" "DrumGroupDevice" with
  | some dr => do
    let pads ← extract_drum_pads dr
    .ok (some (.drum index (trackNameOf t index) pads))
  | none =>
    match findDesc2 t "DeviceChain" "InstrumentGroupDevice" with
    | some ir => .ok (some (.inst index (trackNameOf t index) (extract_macros ir)))
    | none => .ok none

/-- The track loop of `parse_als` (als_parser.py lines 38-46): the index is
advanced only for classified tracks. -/
def parseTracks : List XNode → Nat → Except Unit (List TrackInfo)
  | [], _ => .ok []
  | t :: ts, idx => do
    match ← parse_midi_track t idx with
    | some info => do
      let rest ← parseTracks ts (idx + 1)
      .ok (info :: rest)
    | none => parseTracks ts idx

/-- `parse_als` (als_parser.py lines 8-48) after the byte-level stage: gzip
decompression and `ET.fromstring` are the premise that `root` is a well-formed
document tree; `.error` models a Python exception escaping `parse_als`. -/
def parse_als_xml (root : XNode) : Except Unit (List TrackInfo) :=
  parseTracks (findallChild2 root "Tracks" "MidiTrack") 1

/-- `.replace('\n', ' ')` (hapax_generator.py line 96, first replace). -/
def replaceNl (cs : List Char) : List Char :=
  cs.map (fun c => if c = '\n' then ' ' else c)

/-- `.replace('\r', '')` (hapax_generator.py line 96, second replace). -/
def dropCr (cs : List Char) : List Char :=
  cs.filter (fun c => c != '\r')

/-- `if len(sanitized) > 32: sanitized = sanitized[:32]` (lines 99-100). -/
def truncate32 (cs : List Char) : List Char :=
  if 32 < cs.length then cs.take 32 else cs

/-- `.strip()` (line 102): leading then trailing whitespace removed. -/
def pyStrip (cs : List Char) : List Char :=
  List.rdropWhile isPySpace (cs.dropWhile isPySpace)

/-- `_sanitize_name` at the character level (hapax_generator.py lines 90-102):
replace newlines by spaces, remove carriage returns, truncate to 32
characters, then strip. -/
def sanitizeChars (cs : List Char) : List Char :=
  pyStrip (truncate32 (dropCr (replaceNl cs)))

/-- `_sanitize_name` on strings. -/
def sanitize_name (s : String) : String :=
  String.mk (sanitizeChars s.data)

/-- One `[DRUMLANES]` body line: `f"{i}:NULL:NULL:{note} {name}"`
(hapax_generator.py line 83). -/
def laneLine (lane : Nat) (p : Pad) : String :=
  toString lane ++ ":NULL:NULL:" ++ toString p.note ++ " " ++ sanitize_name p.name

/-- The `for i, pad in enumerate(pads, start=1)` append loop of
`generate_drum_def` (hapax_generator.py lines 79-83). -/
def addLanes (acc : List String) (lane : Nat) : List Pad → List String
  | [] => acc
  | p :: ps => addLanes (acc ++ [laneLine lane p]) (lane + 1) ps

/-- `generate_drum_def` (hapax_generator.py lines 47-87); the `track` dict is
represented by its `name` entry, the only key the function reads. -/
def generate_drum_def (trackName : String) (midiChannel : Int) (pads : List Pad)
    (partNumber : Option Int) : String :=
  let tn0 := sanitize_name trackName
  let tn :=
    match partNumber with
    | some p => tn0 ++ "_p" ++ toString p
    | none => tn0
  let header := ["VERSION 1", "TRACKNAME " ++ tn, "TYPE DRUM", "OUTPORT USBD",
                 "OUTCHAN " ++ toString midiChannel, "", "[DRUMLANES]"]
  String.intercalate "\n" (addLanes header 1 pads ++ ["[/DRUMLANES]"])

/-- The index list of Python's `range(0, stop, step)` for a positive `step`
(`range` raises for a zero step, which therefore needs no model). -/
def pyRangeStep (stop step : Nat) : List Nat :=
  (List.range ((stop + step - 1) / step)).map (fun k => k * step)

/-- `split_pads_into_groups` (hapax_generator.py lines 105-122):
`pads[i:i+group_size]` for `i in range(0, len(pads), group_size)`, with the
early `[]` return on an empty input. -/
def split_pads_into_groups (pads : List Pad) (groupSize : Nat) : List (List Pad) :=
  if pads.isEmpty then []
  else (pyRangeStep pads.length groupSize).map (fun i => (pads.drop i).take groupSize)

/-! ### Structural lemmas about the document model -/

theorem mem_descs_of_mem : ∀ {ns : XNodes} {c : XNode}, c ∈ ns.toList → c ∈ descs ns
  | .nil, _, h => by cases h
  | .cons a rest, c, h => by
    rw [descs]
    rcases List.mem_cons.mp h with rfl | h2
    · exact List.mem_cons_self _ _
    · exact List.mem_cons_of_mem _ (List.mem_append_right _ (mem_descs_of_mem h2))

theorem descs_trans : ∀ (ns : XNodes) (m k : XNode),
    m ∈ descs ns → k ∈ descs m.children → k ∈ descs ns
  | .nil, _, _, hm, _ => by rw [descs] at hm; cases hm
  | .cons (XNode.mk t a ch) rest, m, k, hm, hk => by
    rw [descs] at hm ⊢
    rcases List.mem_cons.mp hm with rfl | h2
    · exact List.mem_cons_of_mem _
        (List.mem_append_left _ (show k ∈ descNode (XNode.mk t a ch) from hk))
    · rcases List.mem_append.mp h2 with h3 | h4
      · have h5 : m ∈ descs ch := h3
        exact List.mem_cons_of_mem _
          (List.mem_append_left _ (descs_trans ch m k h5 hk))
      · exact List.mem_cons_of_mem _
          (List.mem_append_right _ (descs_trans rest m k h4 hk))

theorem descendants_trans {n m k : XNode} (hm : m ∈ n.descendants)
    (hk : k ∈ m.descendants) : k ∈ n.descendants :=
  descs_trans n.children m k hm hk

theorem head?_mem {α : Type} {l : List α} {a : α} (h : l.head? = some a) : a ∈ l := by
  cases l with
  | nil => cases h
  | cons b t =>
    simp only [List.head?] at h
    cases h
    exact List.mem_cons_self _ _

theorem mem_findallDesc {n : XNode} {t : String} {m : XNode}
    (h : m ∈ findallDesc n t) : m ∈ n.descendants ∧ m.tag = t := by
  have h2 := List.mem_filter.mp h
  exact ⟨h2.1, by simpa using h2.2⟩

theorem findDesc_mem {n : XNode} {t : String} {m : XNode}
    (h : findDesc n t = some m) : m ∈ n.descendants ∧ m.tag = t :=
  mem_findallDesc (head?_mem h)

theorem mem_findallChild2 {n : XNode} {a b : String} {m : XNode}
    (h : m ∈ findallChild2 n a b) : m ∈ n.descendants := by
  rw [findallChild2] at h
  obtain ⟨e, he, hm⟩ := List.mem_flatMap.mp h
  have he2 := mem_findallDesc he
  have hm2 := (List.mem_filter.mp hm).1
  exact descendants_trans he2.1 (mem_descs_of_mem hm2)

theorem findDesc2_mem {n : XNode} {a b : String} {m : XNode}
    (h : findDesc2 n a b = some m) : m ∈ n.descendants := by
  have h2 := head?_mem h
  obtain ⟨e, he, hm⟩ := List.mem_flatMap.mp h2
  exact descendants_trans (mem_findallDesc he).1 (mem_findallDesc hm).1

/-! ### C2: `extractMacros` always yields exactly 8 entries -/

theorem padMacrosIter_length (k : Nat) (ms : List String) :
    min 8 (ms.length + k) ≤ (padMacrosIter k ms).length := by
  induction k generalizing ms with
  | zero => rw [padMacrosIter]; omega
  | succ k ih =>
    rw [padMacrosIter]
    split
    · have := ih (ms ++ ["Macro " ++ toString (ms.length + 1)])
      simp only [List.length_append, List.length_cons, List.length_nil] at this
      omega
    · omega

theorem padMacrosTo8_length (ms : List String) : 8 ≤ (padMacrosTo8 ms).length := by
  have := padMacrosIter_length 8 ms
  rw [padMacrosTo8]
  omega

theorem fitTo8_length (ms : List String) : (fitTo8 ms).length = 8 := by
  rw [fitTo8, List.length_take]
  have := padMacrosTo8_length ms
  omega

/-- **C2.** For every instrument-rack node, `extract_macros` returns exactly 8
entries; more generally the final coercion `fitTo8` maps any collected list
(of length 0, 3, 20, ...) to one of length exactly 8. -/
theorem extractMacros_length_eight :
    (∀ rack : XNode, (extract_macros rack).length = 8) ∧
    (∀ ms : List String, (fitTo8 ms).length = 8) :=
  ⟨fun _ => fitTo8_length _, fun ms => fitTo8_length ms⟩

/-! ### C1: `extractPads` yields non-empty names, sorted by note descending -/

theorem exBindOk {α β : Type} (a : α) (f : α → Except Unit β) :
    (Except.ok a : Except Unit α) >>= f = f a := rfl

instance : IsTotal Pad (fun a b => b.note ≤ a.note) :=
  ⟨fun a b => le_total b.note a.note⟩

instance : IsTrans Pad (fun a b => b.note ≤ a.note) :=
  ⟨fun _ _ _ h1 h2 => le_trans h2 h1⟩

theorem branchPad_name {b : XNode} {p : Pad} (h : branchPad b = .ok (some p)) :
    p.name ≠ "" := by
  rw [branchPad] at h
  split at h
  · cases h
  · cases hbn : branchNote _ with
    | error e => rw [hbn] at h; cases h
    | ok k =>
      rw [hbn] at h
      simp only [exBindOk] at h
      split at h
      · cases h
        simpa using (by assumption : padName b ≠ "")
      · cases h

theorem collectPads_names : ∀ {bs : List XNode} {l : List Pad},
    collectPads bs = .ok l → ∀ p ∈ l, p.name ≠ "" := by
  intro bs
  induction bs with
  | nil => intro l h p hp; rw [collectPads] at h; cases h; cases hp
  | cons b rest ih =>
    intro l h p hp
    rw [collectPads] at h
    cases hb : branchPad b with
    | error e => rw [hb] at h; cases h
    | ok o =>
      rw [hb] at h
      simp only [exBindOk] at h
      cases hr : collectPads rest with
      | error e => rw [hr] at h; cases h
      | ok rl =>
        rw [hr] at h
        simp only [exBindOk] at h
        cases o with
        | none =>
          cases h
          exact ih hr p hp
        | some pad =>
          cases h
          rcases List.mem_cons.mp hp with rfl | hp2
          · exact branchPad_name hb
          · exact ih hr p hp2

theorem extract_drum_pads_names {rack : XNode} {l : List Pad}
    (h : extract_drum_pads rack = .ok l) : ∀ p ∈ l, p.name ≠ "" := by
  rw [extract_drum_pads] at h
  split at h
  · cases h; intro p hp; cases hp
  · cases hc : collectPads _ with
    | error e => rw [hc] at h; cases h
    | ok raw =>
      rw [hc] at h
      simp only [exBindOk] at h
      cases h
      intro p hp
      exact collectPads_names hc p ((List.mem_insertionSort _).mp hp)

theorem extract_drum_pads_sorted {rack : XNode} {l : List Pad}
    (h : extract_drum_pads rack = .ok l) :
    List.Sorted (fun a b : Pad => b.note ≤ a.note) l := by
  rw [extract_drum_pads] at h
  split at h
  · cases h; exact List.sorted_nil
  · cases hc : collectPads _ with
    | error e => rw [hc] at h; cases h
    | ok raw =>
      rw [hc] at h
      simp only [exBindOk] at h
      cases h
      exact List.sorted_insertionSort _ raw

/-- A drum rack whose three `DrumBranch` elements carry internal notes
60, 36, 92 (in that document order) with names "mid", "lo", "hi". -/
def drumRackC1 : XNode :=
  .mk "DrumGroupDevice" [] (xl [.mk "Branches" [] (xl
    [.mk "DrumBranch" [] (xl [.mk "ReceivingNote" [("Value", "60")] (xl []),
       .mk "Name" [] (xl [.mk "EffectiveName" [("Value", "mid")] (xl [])])]),
     .mk "DrumBranch" [] (xl [.mk "ReceivingNote" [("Value", "36")] (xl []),
       .mk "Name" [] (xl [.mk "EffectiveName" [("Value", "lo")] (xl [])])]),
     .mk "DrumBranch" [] (xl [.mk "ReceivingNote" [("Value", "92")] (xl []),
       .mk "Name" [] (xl [.mk "EffectiveName" [("Value", "hi")] (xl [])])])])])

/-- **C1.** Whenever `_extract_drum_pads` returns a pad list, no pad in it has
an empty name and the list is sorted by `note` descending; in particular the
drum rack with internal notes `[60, 36, 92]` yields them in order
`[92, 60, 36]`. -/
theorem extractPads_nonempty_sorted :
    (∀ (rack : XNode) (l : List Pad), extract_drum_pads rack = .ok l →
      (∀ p ∈ l, p.name ≠ "") ∧ List.Sorted (fun a b : Pad => b.note ≤ a.note) l) ∧
    extract_drum_pads drumRackC1 =
      .ok [⟨92, "hi"⟩, ⟨60, "mid"⟩, ⟨36, "lo"⟩] :=
  ⟨fun _ _ h => ⟨extract_drum_pads_names h, extract_drum_pads_sorted h⟩, by rfl⟩

/-- Witness for C1: the universally quantified part applied to the concrete
drum rack, its hypothesis discharged by evaluation. -/
theorem extractPads_nonempty_sorted_witness :
    (∀ p ∈ [(⟨92, "hi"⟩ : Pad), ⟨60, "mid"⟩, ⟨36, "lo"⟩], p.name ≠ "") ∧
    List.Sorted (fun a b : Pad => b.note ≤ a.note)
      [⟨92, "hi"⟩, ⟨60, "mid"⟩, ⟨36, "lo"⟩] :=
  extractPads_nonempty_sorted.1 drumRackC1 _ (by rfl)

/-! ### C3: a track with both devices classifies as a drum rack -/

/-- **C3.** If a track's subtree has both a `DeviceChain//DrumGroupDevice` and
a `DeviceChain//InstrumentGroupDevice`, classification takes the drum branch:
the result is either a drum-rack record (with the pads extracted from the
drum device) or the propagated pad-extraction error — never an
instrument-rack record and never "unclassified". -/
theorem drum_priority_classification (t : XNode) (idx : Nat)
    (hd : (findDesc2 t "DeviceChain" "DrumGroupDevice").isSome)
    (_hi : (findDesc2 t "DeviceChain" "InstrumentGroupDevice").isSome) :
    parse_midi_track t idx = .error () ∨
    ∃ pads, parse_midi_track t idx =
      .ok (some (.drum idx (trackNameOf t idx) pads)) := by
  rw [parse_midi_track]
  cases hfd : findDesc2 t "DeviceChain" "DrumGroupDevice" with
  | none => rw [hfd] at hd; cases hd
  | some dr =>
    dsimp only
    cases hep : extract_drum_pads dr with
    | error e => left; rfl
    | ok pads => right; exact ⟨pads, rfl⟩

/-- A track whose device chain holds a drum rack nested inside an
instrument-group wrapper (the configuration the priority rule exists for). -/
def trackC3 : XNode :=
  .mk "MidiTrack" [] (xl [.mk "DeviceChain" [] (xl
    [.mk "InstrumentGroupDevice" [] (xl [.mk "DrumGroupDevice" [] (xl [])])])])

/-- Witness for C3: both hypotheses hold of `trackC3` by evaluation, and the
conclusion follows by applying the theorem. -/
theorem drum_priority_classification_witness :
    parse_midi_track trackC3 1 = .error () ∨
    ∃ pads, parse_midi_track trackC3 1 =
      .ok (some (.drum 1 (trackNameOf trackC3 1) pads)) :=
  drum_priority_classification trackC3 1 (by rfl) (by rfl)

/-! ### C10: `groupPads` is a total partition -/

/-- Reference reading of the chunking loop: peel off `take gs` and recurse on
`drop gs`, with an explicit iteration bound. -/
def chunksFuel : Nat → List Pad → Nat → List (List Pad)
  | 0, _, _ => []
  | _ + 1, [], _ => []
  | f + 1, p :: ps, gs => (p :: ps).take gs :: chunksFuel f ((p :: ps).drop gs) gs

theorem chunksFuel_nil (f gs : Nat) : chunksFuel f [] gs = [] := by
  cases f <;> rfl

theorem pyRangeStep_zero (gs : Nat) (hgs : 0 < gs) : pyRangeStep 0 gs = [] := by
  rw [pyRangeStep]
  have : (0 + gs - 1) / gs = 0 := Nat.div_eq_of_lt (by omega)
  rw [this]
  rfl

theorem pyRangeStep_pos (len gs : Nat) (hgs : 0 < gs) (hlen : 0 < len) :
    pyRangeStep len gs = 0 :: (pyRangeStep (len - gs) gs).map (fun i => i + gs) := by
  have hc : (len + gs - 1) / gs = (len - gs + gs - 1) / gs + 1 := by
    have e1 : len + gs - 1 = (len - 1) + gs := by omega
    rw [e1, Nat.add_div_right _ hgs]
    rcases le_or_lt gs len with h | h
    · have e2 : len - gs + gs - 1 = len - 1 := by omega
      rw [e2]
    · have e2 : len - gs = 0 := by omega
      rw [e2]
      have h2 : (len - 1) / gs = 0 := Nat.div_eq_of_lt (by omega)
      have h3 : (0 + gs - 1) / gs = 0 := Nat.div_eq_of_lt (by omega)
      rw [h2, h3]
  rw [pyRangeStep, pyRangeStep, hc, List.range_succ_eq_map, List.map_cons,
    List.map_map, List.map_map]
  refine congrArg₂ (· :: ·) (Nat.zero_mul gs) (List.map_congr_left ?_)
  intro k _
  simp [Function.comp, Nat.succ_mul]

theorem chunkMap_eq_chunksFuel : ∀ (f : Nat) (ps : List Pad) (gs : Nat),
    0 < gs → ps.length ≤ f →
    (pyRangeStep ps.length gs).map (fun i => (ps.drop i).take gs) = chunksFuel f ps gs
  | f, [], gs, hgs, _ => by
    rw [List.length_nil, pyRangeStep_zero gs hgs, chunksFuel_nil]
    rfl
  | 0, p :: ps, _, _, h => by simp at h
  | f + 1, p :: ps, gs, hgs, h => by
    rw [pyRangeStep_pos _ _ hgs (by simp), List.map_cons, List.map_map, chunksFuel]
    refine congrArg₂ (· :: ·) (by rw [List.drop_zero]) ?_
    have hlen : ((p :: ps).drop gs).length = (p :: ps).length - gs :=
      List.length_drop _ _
    have ih := chunkMap_eq_chunksFuel f ((p :: ps).drop gs) gs hgs
      (by rw [hlen]; simp only [List.length_cons] at h ⊢; omega)
    rw [hlen] at ih
    rw [← ih]
    refine List.map_congr_left ?_
    intro k _
    simp only [Function.comp]
    rw [List.drop_drop, Nat.add_comm gs k]

theorem chunksFuel_flatten : ∀ (f : Nat) (ps : List Pad) (gs : Nat),
    0 < gs → ps.length ≤ f → (chunksFuel f ps gs).flatten = ps
  | _, [], gs, _, _ => by rw [chunksFuel_nil]; rfl
  | 0, p :: ps, _, _, h => by simp at h
  | f + 1, p :: ps, gs, hgs, h => by
    rw [chunksFuel, List.flatten_cons]
    have hlen : ((p :: ps).drop gs).length = (p :: ps).length - gs :=
      List.length_drop _ _
    rw [chunksFuel_flatten f ((p :: ps).drop gs) gs hgs
      (by rw [hlen]; simp only [List.length_cons] at h ⊢; omega)]
    exact List.take_append_drop _ _

theorem chunksFuel_length_le : ∀ (f : Nat) (ps : List Pad) (gs : Nat) (g : List Pad),
    g ∈ chunksFuel f ps gs → g.length ≤ gs
  | 0, _, _, _, hg => by rw [chunksFuel] at hg; cases hg
  | _ + 1, [], _, _, hg => by rw [chunksFuel] at hg; cases hg
  | f + 1, p :: ps, gs, g, hg => by
    rw [chunksFuel] at hg
    rcases List.mem_cons.mp hg with rfl | h2
    · rw [List.length_take]; omega
    · exact chunksFuel_length_le f _ gs g h2

theorem split_eq_chunksFuel (ps : List Pad) (gs : Nat) (hgs : 0 < gs) :
    split_pads_into_groups ps gs = chunksFuel ps.length ps gs := by
  rw [split_pads_into_groups]
  cases ps with
  | nil => rw [chunksFuel_nil]; rfl
  | cons p t =>
    rw [if_neg (by simp)]
    exact chunkMap_eq_chunksFuel _ _ _ hgs le_rfl

/-- **C10.** `split_pads_into_groups` is a total partition for any positive
group size: the groups concatenate back to the input and each has at most
`groupSize` elements; the empty input yields no groups, and any input of
length 10 with group size 8 splits into groups of lengths `[8, 2]`. -/
theorem splitPads_partition :
    (∀ (pads : List Pad) (gs : Nat), 0 < gs →
      (split_pads_into_groups pads gs).flatten = pads ∧
      ∀ g ∈ split_pads_into_groups pads gs, g.length ≤ gs) ∧
    split_pads_into_groups [] 8 = [] ∧
    (∀ pads : List Pad, pads.length = 10 →
      (split_pads_into_groups pads 8).map List.length = [8, 2]) := by
  refine ⟨fun pads gs hgs => ?_, by rfl, fun pads h10 => ?_⟩
  · rw [split_eq_chunksFuel pads gs hgs]
    exact ⟨chunksFuel_flatten _ _ _ hgs le_rfl,
      fun g hg => chunksFuel_length_le _ _ _ g hg⟩
  · have hne : pads ≠ [] := by intro h; rw [h] at h10; simp at h10
    rw [split_pads_into_groups, if_neg (by simpa using hne), h10]
    have hr : pyRangeStep 10 8 = [0, 8] := by rfl
    rw [hr]
    simp [List.length_take, List.length_drop, h10]

/-- Witness for C10: the partition part applied at a concrete ten-pad list
and group size 8, with the positivity discharged by evaluation. -/
theorem splitPads_partition_witness :
    (split_pads_into_groups ((List.range 10).map (fun i => ⟨i, "p"⟩)) 8).flatten =
      ((List.range 10).map (fun i => (⟨i, "p"⟩ : Pad))) ∧
    ∀ g ∈ split_pads_into_groups ((List.range 10).map (fun i => ⟨i, "p"⟩)) 8,
      g.length ≤ 8 :=
  splitPads_partition.1 ((List.range 10).map (fun i => ⟨i, "p"⟩)) 8 (by decide)

/-! ### C9: name sanitization is idempotent and bounded by 32 characters -/

theorem head_not_of_dropWhile {α : Type} (p : α → Bool) :
    ∀ (l : List α) {h : α} {t : List α}, l.dropWhile p = h :: t → p h = false := by
  intro l
  induction l with
  | nil => intro h t he; simp [List.dropWhile] at he
  | cons a l ih =>
    intro h t he
    rw [List.dropWhile_cons] at he
    by_cases hp : p a = true
    · rw [if_pos hp] at he
      exact ih he
    · rw [if_neg hp] at he
      cases he
      simpa using hp

/-- A stripped list has no leading whitespace left to strip. -/
theorem pyStrip_dropWhile_fixed (w : List Char) :
    (pyStrip w).dropWhile isPySpace = pyStrip w := by
  cases hr : pyStrip w with
  | nil => rfl
  | cons h t =>
    have hpre : pyStrip w <+: w.dropWhile isPySpace := List.rdropWhile_prefix _ _
    rw [hr] at hpre
    obtain ⟨rest, hw⟩ := hpre
    have hw2 : w.dropWhile isPySpace = h :: (t ++ rest) := by rw [← hw]; rfl
    have hph := head_not_of_dropWhile isPySpace w hw2
    rw [List.dropWhile_cons, if_neg (by simp [hph])]

/-- A stripped list has no trailing whitespace left to strip. -/
theorem pyStrip_rdropWhile_fixed (w : List Char) :
    List.rdropWhile isPySpace (pyStrip w) = pyStrip w :=
  List.rdropWhile_idempotent _ _

theorem pyStrip_idem (w : List Char) : pyStrip (pyStrip w) = pyStrip w := by
  rw [pyStrip, pyStrip_dropWhile_fixed, pyStrip_rdropWhile_fixed]

theorem truncate32_subset (cs : List Char) : truncate32 cs ⊆ cs := by
  rw [truncate32]
  split
  · exact List.take_subset _ _
  · exact fun c hc => hc

theorem pyStrip_subset (w : List Char) : pyStrip w ⊆ w :=
  fun _ hc =>
    (List.dropWhile_suffix isPySpace).subset
      (( List.rdropWhile_prefix isPySpace _).subset hc)

theorem sanitizeChars_no_nl_cr {cs : List Char} {c : Char}
    (hc : c ∈ sanitizeChars cs) : c ≠ '\n' ∧ c ≠ '\r' := by
  have h2 : c ∈ dropCr (replaceNl cs) :=
    truncate32_subset _ (pyStrip_subset _ hc)
  have hcr : (c != '\r') = true := (List.mem_filter.mp h2).2
  have h1 : c ∈ replaceNl cs := (List.mem_filter.mp h2).1
  obtain ⟨orig, _, hor⟩ := List.mem_map.mp h1
  refine ⟨?_, by simpa using hcr⟩
  intro hnl
  rw [hnl] at hor
  by_cases ho : orig = '\n'
  · rw [if_pos ho] at hor; cases hor
  · rw [if_neg ho] at hor; exact ho hor

theorem truncate32_length_le (cs : List Char) : (truncate32 cs).length ≤ 32 := by
  rw [truncate32]
  split
  · rw [List.length_take]; omega
  · omega

theorem pyStrip_length_le (w : List Char) : (pyStrip w).length ≤ w.length :=
  le_trans (( List.rdropWhile_prefix isPySpace _).sublist).length_le
    ((List.dropWhile_suffix isPySpace).sublist).length_le

theorem sanitizeChars_length_le (cs : List Char) : (sanitizeChars cs).length ≤ 32 :=
  le_trans (pyStrip_length_le _) (truncate32_length_le _)

theorem sanitizeChars_idem (cs : List Char) :
    sanitizeChars (sanitizeChars cs) = sanitizeChars cs := by
  have hmap : replaceNl (sanitizeChars cs) = sanitizeChars cs := by
    refine (List.map_congr_left ?_).trans (List.map_id _)
    intro a ha
    have := (sanitizeChars_no_nl_cr ha).1
    simp [this]
  have hfil : dropCr (sanitizeChars cs) = sanitizeChars cs := by
    refine List.filter_eq_self.mpr ?_
    intro a ha
    have := (sanitizeChars_no_nl_cr ha).2
    simpa using this
  have htr : truncate32 (sanitizeChars cs) = sanitizeChars cs := by
    rw [truncate32, if_neg (by have := sanitizeChars_length_le cs; omega)]
  conv =>
    lhs
    rw [sanitizeChars, hmap, hfil, htr]
  exact pyStrip_idem _

/-- **C9.** `_sanitize_name` is idempotent and its result never exceeds 32
characters. -/
theorem sanitize_idempotent_bounded :
    ∀ x : String, sanitize_name (sanitize_name x) = sanitize_name x ∧
      (sanitize_name x).length ≤ 32 := by
  intro x
  constructor
  · show String.mk (sanitizeChars (String.mk (sanitizeChars x.data)).data) =
      String.mk (sanitizeChars x.data)
    exact congrArg String.mk (sanitizeChars_idem x.data)
  · show (String.mk (sanitizeChars x.data)).length ≤ 32
    simpa [String.length] using sanitizeChars_length_le x.data

/-! ### C8: the emitted `[DRUMLANES]` block -/

theorem addLanes_eq : ∀ (ps : List Pad) (acc : List String) (k : Nat),
    addLanes acc k ps = acc ++ (List.enumFrom k ps).map (fun ip => laneLine ip.1 ip.2)
  | [], acc, k => by simp [addLanes, List.enumFrom]
  | p :: ps, acc, k => by
    rw [addLanes, addLanes_eq ps, List.enumFrom, List.map_cons]
    simp

/-- The `[DRUMLANES]` body as the spec states it: one line of the form
`"{lane}:NULL:NULL:{note} {name}"` per pad, in the given order, lane numbers
1-based and sequential within the call. -/
def drumLanesSpec (pads : List Pad) : List String :=
  (List.enumFrom 1 pads).map (fun ip => laneLine ip.1 ip.2)

/-- The emitted track name as the spec states it: the sanitized name, with
`"_p{partNumber}"` appended when a part number is given. -/
def drumTrackNameSpec (trackName : String) (partNumber : Option Int) : String :=
  match partNumber with
  | some p => sanitize_name trackName ++ "_p" ++ toString p
  | none => sanitize_name trackName

/-- **C8.** `generate_drum_def` renders exactly the header (with the part
suffix applied to the sanitized track name when given), one lane line per pad
in the given order with lane numbers restarting at 1, and the closing tag. -/
theorem generateDrumDef_format :
    ∀ (tn : String) (ch : Int) (pads : List Pad) (pn : Option Int),
      generate_drum_def tn ch pads pn =
        String.intercalate "\n"
          (["VERSION 1", "TRACKNAME " ++ drumTrackNameSpec tn pn, "TYPE DRUM",
            "OUTPORT USBD", "OUTCHAN " ++ toString ch, "", "[DRUMLANES]"] ++
           drumLanesSpec pads ++ ["[/DRUMLANES]"]) ∧
      (drumLanesSpec pads).length = pads.length := by
  intro tn ch pads pn
  constructor
  · cases pn with
    | none =>
      dsimp only [generate_drum_def, drumTrackNameSpec]
      rw [addLanes_eq]
      rfl
    | some p =>
      dsimp only [generate_drum_def, drumTrackNameSpec]
      rw [addLanes_eq]
      rfl
  · rw [drumLanesSpec, List.length_map, List.enumFrom_length]

/-! ### C7: track-name resolution (corrected) -/

/-- A track whose `Name/EffectiveName` element exists but carries no `Value`
attribute, while `Name/UserName` carries `Value="Foo"`. -/
def trackC7a : XNode :=
  .mk "MidiTrack" [] (xl [.mk "Name" [] (xl
    [.mk "EffectiveName" [] (xl []),
     .mk "UserName" [("Value", "Foo")] (xl [])])])

/-- A classifiable track whose `Name/EffectiveName` has `Value=""`. -/
def trackC7b : XNode :=
  .mk "MidiTrack" [] (xl
    [.mk "Name" [] (xl [.mk "EffectiveName" [("Value", "")] (xl [])]),
     .mk "DeviceChain" [] (xl [.mk "InstrumentGroupDevice" [] (xl [])])])

/-- **C7 counterexample.** The claim fails twice on the code.  (1) When the
`EffectiveName` element exists but "yields no value", `UserName` is *not*
consulted: on `trackC7a` the code produces the default `"Track 1"` even
though `UserName` holds `"Foo"`.  (2) The produced record name is *not*
always non-empty: on `trackC7b` (an `EffectiveName` whose `Value` is the
empty string) classification yields a record whose name is `""`. -/
theorem trackName_resolution_counterexample :
    (findChild2 trackC7a "Name" "UserName").isSome = true ∧
    trackNameOf trackC7a 1 = "Track 1" ∧
    trackNameOf trackC7a 1 ≠ "Foo" ∧
    parse_midi_track trackC7b 1 =
      .ok (some (.inst 1 "" ["Macro 1", "Macro 2", "Macro 3", "Macro 4",
        "Macro 5", "Macro 6", "Macro 7", "Macro 8"])) :=
  ⟨by rfl, by rfl, by decide, by rfl⟩

/-- **C7 amended.** The name resolves to the `Value` attribute of the first
`Name/EffectiveName` node if such a node *exists* (with the default
`"Track {index}"` when the attribute is absent — `UserName` is not consulted
in that case); otherwise to the `Value` attribute of the first
`Name/UserName` node (same default); otherwise to `"Track {index}"`.  The
resulting name can be empty when the attribute holds the empty string. -/
theorem trackName_resolution_amended :
    (∀ (t : XNode) (idx : Nat) (e : XNode),
      findChild2 t "Name" "EffectiveName" = some e →
      trackNameOf t idx = e.attrD "Value" ("Track " ++ toString idx)) ∧
    (∀ (t : XNode) (idx : Nat) (u : XNode),
      findChild2 t "Name" "EffectiveName" = none →
      findChild2 t "Name" "UserName" = some u →
      trackNameOf t idx = u.attrD "Value" ("Track " ++ toString idx)) ∧
    (∀ (t : XNode) (idx : Nat),
      findChild2 t "Name" "EffectiveName" = none →
      findChild2 t "Name" "UserName" = none →
      trackNameOf t idx = "Track " ++ toString idx) := by
  refine ⟨fun t idx e he => ?_, fun t idx u he hu => ?_, fun t idx he hu => ?_⟩
  · rw [trackNameOf, he]
  · rw [trackNameOf, he, hu]
  · rw [trackNameOf, he, hu]

/-- A track carrying only a `Name/UserName` with `Value="Bar"`. -/
def trackC7c : XNode :=
  .mk "MidiTrack" [] (xl [.mk "Name" [] (xl
    [.mk "UserName" [("Value", "Bar")] (xl [])])])

/-- A track with no name elements at all. -/
def trackC7d : XNode := .mk "MidiTrack" [] (xl [])

/-- Witness for the amended C7: all three fallback branches applied to
concrete tracks, their hypotheses discharged by evaluation. -/
theorem trackName_resolution_amended_witness :
    trackNameOf trackC7a 1 =
      (XNode.mk "EffectiveName" [] (xl [])).attrD "Value" ("Track " ++ toString 1) ∧
    trackNameOf trackC7c 2 =
      (XNode.mk "UserName" [("Value", "Bar")] (xl [])).attrD "Value"
        ("Track " ++ toString 2) ∧
    trackNameOf trackC7d 3 = "Track " ++ toString 3 :=
  ⟨trackName_resolution_amended.1 trackC7a 1 _ (by rfl),
   trackName_resolution_amended.2.1 trackC7c 2 _ (by rfl) (by rfl),
   trackName_resolution_amended.2.2 trackC7d 3 (by rfl) (by rfl)⟩

/-! ### C4: DrumBranch note handling (corrected) -/

/-- A `DrumBranch` whose `ReceivingNote` element is present but carries no
`Value` attribute, and which has the name "Kick". -/
def branchC4 : XNode :=
  .mk "DrumBranch" [] (xl
    [.mk "ReceivingNote" [] (xl []),
     .mk "Name" [] (xl [.mk "EffectiveName" [("Value", "Kick")] (xl [])])])

/-- The drum rack containing only `branchC4`. -/
def drumRackC4 : XNode :=
  .mk "DrumGroupDevice" [] (xl [.mk "Branches" [] (xl [branchC4])])

/-- **C4 counterexample.** The code only skips a branch when the
`ReceivingNote` *element* is absent.  On `branchC4` the element exists but
its `Value` attribute — the note id — is absent; the claim says the branch is
skipped and no pad with a silently-defaulted note 0 is returned, yet
`_extract_drum_pads` returns exactly the pad `{note: 0, name: "Kick"}`. -/
theorem receivingNote_default_counterexample :
    findDesc branchC4 "ReceivingNote" = some (XNode.mk "ReceivingNote" [] (xl [])) ∧
    (XNode.mk "ReceivingNote" [] (xl [])).attr "Value" = none ∧
    extract_drum_pads drumRackC4 = .ok [⟨0, "Kick"⟩] :=
  ⟨by rfl, by rfl, by rfl⟩

/-- **C4 amended.** A `DrumBranch` is skipped entirely exactly when the
`ReceivingNote` *element* is absent; when the element is present but its
`Value` attribute is missing, the note silently defaults to 0 and a named
pad is still produced. -/
theorem receivingNote_skip_amended :
    (∀ branch : XNode, findDesc branch "ReceivingNote" = none →
      branchPad branch = .ok none) ∧
    (∀ branch rn : XNode, findDesc branch "ReceivingNote" = some rn →
      rn.attr "Value" = none → padName branch ≠ "" →
      branchPad branch = .ok (some ⟨0, padName branch⟩)) := by
  constructor
  · intro branch h
    rw [branchPad, h]
  · intro branch rn h hv hn
    have hbn : branchNote rn = .ok 0 := by rw [branchNote, hv]
    rw [branchPad, h]
    dsimp only
    rw [hbn, exBindOk, if_pos hn]

/-- A `DrumBranch` with no `ReceivingNote` element at all. -/
def branchC4b : XNode :=
  .mk "DrumBranch" [] (xl
    [.mk "Name" [] (xl [.mk "EffectiveName" [("Value", "Snare")] (xl [])])])

/-- Witness for the amended C4: both cases applied to concrete branches. -/
theorem receivingNote_skip_amended_witness :
    branchPad branchC4b = .ok none ∧
    branchPad branchC4 = .ok (some ⟨0, padName branchC4⟩) :=
  ⟨receivingNote_skip_amended.1 branchC4b (by rfl),
   receivingNote_skip_amended.2 branchC4 _ (by rfl) (by rfl) (by decide)⟩

/-! ### C5: the two-pass macro recovery (corrected) -/

/-- The value the second pass reads for slot `i`, when a
`MacroDisplayNames.{i}` node exists anywhere under the rack. -/
def shallowValue (rack : XNode) (i : Nat) : Option String :=
  (findDesc rack ("MacroDisplayNames." ++ toString i)).map
    (fun dn => dn.attrD "Value" "")

/-- An instrument rack whose first-pass slot 0 resolves to the *custom* name
`"Macro X"` (not a placeholder), with a shallow `MacroDisplayNames.0` node
also present. -/
def rackC5 : XNode :=
  .mk "InstrumentGroupDevice" [] (xl
    [.mk "Macros" [] (xl
      [.mk "MacroControls.0" []
        (xl [.mk "CustomName" [("Value", "Macro X")] (xl [])])]),
     .mk "MacroDisplayNames.0" [("Value", "Shallow")] (xl [])])

/-- **C5 counterexample.** The second pass is triggered by the *prefix* test
`m.startswith('Macro ')`, not by slots being placeholders of the exact form
`"Macro {i+1}"`.  On `rackC5` the first pass yields the custom name
`"Macro X"` in slot 0 — not the placeholder `"Macro 1"` — so by the claim the
second pass must not run and the result would keep `"Macro X"`; the code runs
it anyway and overwrites slot 0 with `"Shallow"`. -/
theorem secondPass_condition_counterexample :
    macrosPass1 rackC5 = ["Macro X", "Macro 2", "Macro 3", "Macro 4",
      "Macro 5", "Macro 6", "Macro 7", "Macro 8"] ∧
    "Macro X" ≠ "Macro 1" ∧
    extract_macros rackC5 = ["Shallow", "Macro 2", "Macro 3", "Macro 4",
      "Macro 5", "Macro 6", "Macro 7", "Macro 8"] ∧
    extract_macros rackC5 ≠ fitTo8 (macrosPass1 rackC5) :=
  ⟨by rfl, by decide, by rfl, by decide⟩

theorem shallowStep_length {rack : XNode} {acc : List String} {j : Nat}
    (hj : j < acc.length) : (shallowStep rack acc j).length = acc.length := by
  rw [shallowStep]
  cases hf : findDesc rack ("MacroDisplayNames." ++ toString j) with
  | none => rfl
  | some dn =>
    dsimp only
    by_cases hname : dn.attrD "Value" "" ≠ ""
    · rw [if_pos hname, if_pos hj, List.length_set]
    · rw [if_neg hname]

theorem shallowStep_get_ne {rack : XNode} {acc : List String} {j i : Nat}
    (hj : j < acc.length) (hne : j ≠ i) :
    (shallowStep rack acc j).get? i = acc.get? i := by
  rw [shallowStep]
  cases hf : findDesc rack ("MacroDisplayNames." ++ toString j) with
  | none => rfl
  | some dn =>
    dsimp only
    by_cases hname : dn.attrD "Value" "" ≠ ""
    · rw [if_pos hname, if_pos hj]
      exact List.get?_set_ne _ _ hne
    · rw [if_neg hname]

theorem shallowStep_get_eq {rack : XNode} {acc : List String} {j : Nat} {v : String}
    (hj : j < acc.length) (hv : shallowValue rack j = some v) (hne : v ≠ "") :
    (shallowStep rack acc j).get? j = some v := by
  rw [shallowStep]
  rw [shallowValue] at hv
  cases hf : findDesc rack ("MacroDisplayNames." ++ toString j) with
  | none => rw [hf] at hv; cases hv
  | some dn =>
    rw [hf] at hv
    simp only [Option.map] at hv
    cases hv
    dsimp only
    rw [if_pos (by simpa using hne), if_pos hj]
    exact List.get?_set_eq_of_lt _ hj

theorem shallowFold {rack : XNode} {i : Nat} {v : String}
    (hv : shallowValue rack i = some v) (hvne : v ≠ "") :
    ∀ (L : List Nat) (acc : List String), acc.length = 8 → (∀ j ∈ L, j < 8) →
      (L.foldl (shallowStep rack) acc).length = 8 ∧
      (i ∉ L → (L.foldl (shallowStep rack) acc).get? i = acc.get? i) ∧
      (i ∈ L → (L.foldl (shallowStep rack) acc).get? i = some v)
  | [], acc, hlen, _ => ⟨hlen, fun _ => rfl, fun h => absurd h (List.not_mem_nil i)⟩
  | j :: L, acc, hlen, hL => by
    have hj : j < acc.length := by rw [hlen]; exact hL j (List.mem_cons_self _ _)
    have hlen2 : (shallowStep rack acc j).length = 8 := by
      rw [shallowStep_length hj, hlen]
    have ih := shallowFold hv hvne L (shallowStep rack acc j) hlen2
      (fun k hk => hL k (List.mem_cons_of_mem _ hk))
    rw [List.foldl_cons]
    refine ⟨ih.1, fun hni => ?_, fun hin => ?_⟩
    · have hji : j ≠ i := fun he => hni (he ▸ List.mem_cons_self _ _)
      rw [ih.2.1 (fun h => hni (List.mem_cons_of_mem _ h)),
        shallowStep_get_ne hj hji]
    · rcases List.mem_cons.mp hin with rfl | hin2
      · by_cases hiL : i ∈ L
        · exact ih.2.2 hiL
        · rw [ih.2.1 hiL]
          exact shallowStep_get_eq hj hv hvne
      · exact ih.2.2 hin2

theorem fitTo8_of_length_eq {l : List String} (h : l.length = 8) : fitTo8 l = l := by
  rw [fitTo8, padMacrosTo8, padMacrosIter, if_neg (by omega)]
  exact List.take_of_length_le (by omega)

/-- **C5 amended.** The second pass is gated by the prefix test
`m.startswith('Macro ')` (which also matches custom names such as
`"Macro X"`), not by exact placeholder equality: when the first pass
collected names and at least one of them does not start with `"Macro "`, the
second pass changes nothing and the result is the coerced first pass; when
every collected name starts with `"Macro "` (the pass collected its full 8
slots) a non-empty value found at `.//MacroDisplayNames.{i}` overwrites slot
`i` of the result. -/
theorem secondPass_behavior_amended :
    (∀ rack : XNode, macrosPass1 rack ≠ [] →
      ¬ (∀ m ∈ macrosPass1 rack, pyStartsWith "Macro " m = true) →
      extract_macros rack = fitTo8 (macrosPass1 rack)) ∧
    (∀ (rack : XNode) (i : Nat) (v : String), i < 8 →
      (macrosPass1 rack).length = 8 →
      (∀ m ∈ macrosPass1 rack, pyStartsWith "Macro " m = true) →
      shallowValue rack i = some v → v ≠ "" →
      (extract_macros rack).get? i = some v) := by
  constructor
  · intro rack h1 h2
    have hc : ((macrosPass1 rack).isEmpty ||
        (macrosPass1 rack).all (fun m => pyStartsWith "Macro " m)) = false := by
      rw [Bool.or_eq_false_iff]
      constructor
      · cases hms : macrosPass1 rack with
        | nil => exact absurd hms h1
        | cons a l => rfl
      · rw [← Bool.not_eq_true, List.all_eq_true]
        simpa using h2
    have hcn : ¬ ((macrosPass1 rack).isEmpty ||
        (macrosPass1 rack).all (fun m => pyStartsWith "Macro " m)) = true := by
      rw [hc]
      exact Bool.false_ne_true
    rw [extract_macros, if_neg hcn]
  · intro rack i v hi hlen hall hv hvne
    have hc : ((macrosPass1 rack).isEmpty ||
        (macrosPass1 rack).all (fun m => pyStartsWith "Macro " m)) = true := by
      rw [Bool.or_eq_true]
      right
      exact List.all_eq_true.mpr hall
    rw [extract_macros, if_pos hc]
    rw [shallowPass]
    have hfold := shallowFold hv hvne (List.range 8) (macrosPass1 rack) hlen
      (fun j hj => List.mem_range.mp hj)
    rw [fitTo8_of_length_eq hfold.1]
    exact hfold.2.2 (List.mem_range.mpr hi)

/-- An instrument rack whose first-pass slot 0 is the custom name `"Kick"`,
which does not start with `"Macro "`. -/
def rackC5a : XNode :=
  .mk "InstrumentGroupDevice" [] (xl
    [.mk "Macros" [] (xl
      [.mk "MacroControls.0" []
        (xl [.mk "CustomName" [("Value", "Kick")] (xl [])])]),
     .mk "MacroDisplayNames.0" [("Value", "Shallow")] (xl [])])

/-- Witness for the amended C5: the no-second-pass case on `rackC5a` and the
overwrite case on `rackC5`, all hypotheses discharged by evaluation. -/
theorem secondPass_behavior_amended_witness :
    extract_macros rackC5a = fitTo8 (macrosPass1 rackC5a) ∧
    (extract_macros rackC5).get? 0 = some "Shallow" :=
  ⟨secondPass_behavior_amended.1 rackC5a (by decide) (by decide),
   secondPass_behavior_amended.2 rackC5 0 "Shallow" (by decide) (by rfl)
     (by decide) (by rfl) (by decide)⟩

/-! ### C6: totality of the whole extraction (corrected) -/

/-- A `ReceivingNote` element is harmless when its `Value` attribute, if
present, parses as a Python integer literal. -/
def noteAttrOK (m : XNode) : Bool :=
  match m.attr "Value" with
  | none => true
  | some v => (pyInt v).isSome

/-- Every `ReceivingNote` element in the subtree has a parseable (or absent)
`Value` attribute. -/
def notesOK (n : XNode) : Bool :=
  n.descendants.all (fun m => !(m.tag == "ReceivingNote") || noteAttrOK m)

theorem notesOK_spec {n : XNode} (h : notesOK n = true) {m : XNode}
    (hm : m ∈ n.descendants) (ht : m.tag = "ReceivingNote") :
    noteAttrOK m = true := by
  rw [notesOK, List.all_eq_true] at h
  have h2 := h m hm
  rw [ht] at h2
  simpa using h2

theorem notesOK_mono {n m : XNode} (h : notesOK n = true)
    (hm : m ∈ n.descendants) : notesOK m = true := by
  rw [notesOK, List.all_eq_true] at h ⊢
  intro k hk
  exact h k (descendants_trans hm hk)

theorem branchNote_ok {rn : XNode} (h : noteAttrOK rn = true) :
    ∃ k, branchNote rn = .ok k := by
  cases ha : rn.attr "Value" with
  | none => exact ⟨0, by rw [branchNote, ha]⟩
  | some v =>
    cases hp : pyInt v with
    | some k => exact ⟨k, by rw [branchNote, ha]; dsimp only; rw [hp]⟩
    | none =>
      exfalso
      rw [noteAttrOK, ha] at h
      dsimp only at h
      rw [hp] at h
      simp at h

theorem branchPad_ok {branch : XNode} (h : notesOK branch = true) :
    ∃ o, branchPad branch = .ok o := by
  rw [branchPad]
  cases hf : findDesc branch "ReceivingNote" with
  | none => exact ⟨none, rfl⟩
  | some rn =>
    have hmem := findDesc_mem hf
    obtain ⟨k, hk⟩ := branchNote_ok (notesOK_spec h hmem.1 hmem.2)
    dsimp only
    rw [hk, exBindOk]
    by_cases hn : padName branch ≠ ""
    · exact ⟨some ⟨k, padName branch⟩, by rw [if_pos hn]⟩
    · exact ⟨none, by rw [if_neg hn]⟩

theorem collectPads_ok : ∀ {bs : List XNode},
    (∀ b ∈ bs, notesOK b = true) → ∃ l, collectPads bs = .ok l
  | [], _ => ⟨[], rfl⟩
  | b :: bs, h => by
    obtain ⟨o, ho⟩ := branchPad_ok (h b (List.mem_cons_self _ _))
    obtain ⟨l, hl⟩ := collectPads_ok (fun x hx => h x (List.mem_cons_of_mem _ hx))
    rw [collectPads, ho, exBindOk, hl, exBindOk]
    cases o with
    | some pad => exact ⟨pad :: l, rfl⟩
    | none => exact ⟨l, rfl⟩

theorem extract_drum_pads_ok {dr : XNode} (h : notesOK dr = true) :
    ∃ l, extract_drum_pads dr = .ok l := by
  rw [extract_drum_pads]
  cases hf : findDesc dr "Branches" with
  | none => exact ⟨[], rfl⟩
  | some br =>
    have hbr : notesOK br = true := notesOK_mono h (findDesc_mem hf).1
    obtain ⟨l, hl⟩ := collectPads_ok
      (fun b hb => notesOK_mono hbr (mem_findallDesc hb).1)
    dsimp only
    rw [hl, exBindOk]
    exact ⟨sortPadsDesc l, rfl⟩

theorem parse_midi_track_ok {t : XNode} (h : notesOK t = true) (idx : Nat) :
    ∃ o, parse_midi_track t idx = .ok o := by
  rw [parse_midi_track]
  cases hf : findDesc2 t "DeviceChain" "DrumGroupDevice" with
  | some dr =>
    have hdr : notesOK dr = true := notesOK_mono h (findDesc2_mem hf)
    obtain ⟨l, hl⟩ := extract_drum_pads_ok hdr
    dsimp only
    rw [hl, exBindOk]
    exact ⟨some (.drum idx (trackNameOf t idx) l), rfl⟩
  | none =>
    cases hg : findDesc2 t "DeviceChain" "InstrumentGroupDevice" with
    | some ir =>
      exact ⟨some (.inst idx (trackNameOf t idx) (extract_macros ir)), rfl⟩
    | none => exact ⟨none, rfl⟩

theorem parseTracks_ok : ∀ (ts : List XNode) (idx : Nat),
    (∀ t ∈ ts, notesOK t = true) → ∃ l, parseTracks ts idx = .ok l
  | [], _, _ => ⟨[], rfl⟩
  | t :: ts, idx, h => by
    obtain ⟨o, ho⟩ := parse_midi_track_ok (h t (List.mem_cons_self _ _)) idx
    rw [parseTracks, ho, exBindOk]
    cases o with
    | some info =>
      obtain ⟨l, hl⟩ := parseTracks_ok ts (idx + 1)
        (fun x hx => h x (List.mem_cons_of_mem _ hx))
      dsimp only
      rw [hl, exBindOk]
      exact ⟨info :: l, rfl⟩
    | none =>
      exact parseTracks_ok ts idx (fun x hx => h x (List.mem_cons_of_mem _ hx))

/-- A well-formed document whose only `ReceivingNote` carries the non-numeric
`Value="abc"` on a named drum branch. -/
def rootC6 : XNode :=
  .mk "Ableton" [] (xl [.mk "Tracks" [] (xl
    [.mk "MidiTrack" [] (xl [.mk "DeviceChain" [] (xl
      [.mk "DrumGroupDevice" [] (xl [.mk "Branches" [] (xl
        [.mk "DrumBranch" [] (xl
          [.mk "ReceivingNote" [("Value", "abc")] (xl []),
           .mk "Name" [] (xl
             [.mk "EffectiveName" [("Value", "X")] (xl [])])])])])])])])])

/-- **C6 counterexample.** The claim that extraction never raises on
well-formed XML is false: on `rootC6` — a perfectly well-formed document —
`int(receiving_note.get('Value', 0))` is applied to the non-numeric string
`"abc"`, the resulting `ValueError` is caught nowhere in `parse_als`, and the
whole extraction fails. -/
theorem parse_raises_counterexample : parse_als_xml rootC6 = .error () := by rfl

/-- **C6 amended.** The extraction returns normally on every well-formed
document in which each `ReceivingNote` element's `Value` attribute (when
present) is a valid integer literal; the one unguarded operation is that
`int()` conversion, which raises `ValueError` on any other value.  (The
byte-level stage is the premise here: gzip decompression and XML parsing
yield the tree `root`, and malformed top-level XML still fails the whole
operation as the claim says.) -/
theorem parse_total_amended (root : XNode) (h : notesOK root = true) :
    ∃ l, parse_als_xml root = .ok l := by
  rw [parse_als_xml]
  exact parseTracks_ok _ 1 (fun t ht => notesOK_mono h (mem_findallChild2 ht))

/-- A well-formed document with one drum-rack track whose notes all parse. -/
def rootC6w : XNode :=
  .mk "Ableton" [] (xl [.mk "Tracks" [] (xl
    [.mk "MidiTrack" [] (xl [.mk "DeviceChain" [] (xl [drumRackC1])])])])

/-- Witness for the amended C6: the concrete good document satisfies the
hypothesis by evaluation and extraction succeeds on it. -/
theorem parse_total_amended_witness :
    notesOK rootC6w = true ∧ ∃ l, parse_als_xml rootC6w = .ok l :=
  ⟨by rfl, parse_total_amended rootC6w (by rfl)⟩
